import Mathlib

set_option linter.unusedSectionVars false
set_option linter.unusedVariables false

/-!
Verification of the goset repository: a generic hash-backed set
(`HashSet[T comparable] map[T]struct{}` in src/hashset.go) implementing the
`Set[T]` interface of src/set.go.

Embedding: a Go map `map[T]struct{}` is represented by the list of its keys
in some iteration order.  Go map iteration order is unspecified, so every
theorem quantifies over all `Nodup` lists representing the same set (the
map invariant: keys are distinct).  Each operation is translated loop by
loop from src/hashset.go: `range` over a map becomes `List.foldl` over the
key list, map insert becomes `HashSet.Add`, map delete becomes
`HashSet.Remove` (`List.erase`), map lookup becomes `HashSet.Contains`.

For the in-place operations called with the receiver aliased as its own
argument, Go's iteration semantics apply: an entry removed before being
reached is never produced, and these loops only ever remove the entry just
produced, so the produced sequence is exactly the original key list; the
membership tests and mutations act on the live, evolving map.  The
`...Self` definitions below model that by folding over the original key
list while both the test and the mutation use the evolving state.
-/

variable {α : Type} [DecidableEq α]

/-- Keys of the Go map `map[T]struct{}`, in iteration order. -/
abbrev HashSet (α : Type) : Type := List α

/-- Go: `func (set HashSet[T]) Contains(element T) bool { _, ok := set[element]; return ok }`. -/
def HashSet.Contains (s : HashSet α) (x : α) : Bool :=
  decide (x ∈ s)

/-- Go: `func (set HashSet[T]) Add(element T) { set[element] = struct{}{} }`.
Inserting an existing key leaves the key set unchanged; a new key is
appended (its position in future iteration order is unspecified, and no
theorem below depends on the position chosen). -/
def HashSet.Add (s : HashSet α) (x : α) : HashSet α :=
  if x ∈ s then s else s ++ [x]

/-- Go: `func (set HashSet[T]) Remove(element T) { delete(set, element) }`. -/
def HashSet.Remove (s : HashSet α) (x : α) : HashSet α :=
  s.erase x

/-- Go: `func (set HashSet[T]) Len() int { return len(set) }`. -/
def HashSet.Len (s : HashSet α) : Nat :=
  s.length

/-- Go: `Elements()` materializes the keys in iteration order. -/
def HashSet.Elements (s : HashSet α) : List α :=
  s

/-- Go: `Union`: `newset := maps.Clone(set); for element := range other.All() { newset.Add(element) }; return newset`. -/
def HashSet.Union (s o : HashSet α) : HashSet α :=
  o.foldl (fun newset element => HashSet.Add newset element) s

/-- Go: `Intersection`: `newset := NewHashSet[T](); for element := range other.All() { if set.Contains(element) { newset.Add(element) } }`. -/
def HashSet.Intersection (s o : HashSet α) : HashSet α :=
  o.foldl (fun newset element =>
    if HashSet.Contains s element then HashSet.Add newset element else newset) []

/-- Go: `Difference`: `newset := NewHashSet[T](); for element := range set.All() { if !other.Contains(element) { newset.Add(element) } }`. -/
def HashSet.Difference (s o : HashSet α) : HashSet α :=
  s.foldl (fun newset element =>
    if HashSet.Contains o element then newset else HashSet.Add newset element) []

/-- Go: `SymmetricDifference`: `newset := maps.Clone(set); for element := range other.All() { if newset.Contains(element) { newset.Remove(element) } else { newset.Add(element) } }`. -/
def HashSet.SymmetricDifference (s o : HashSet α) : HashSet α :=
  o.foldl (fun newset element =>
    if HashSet.Contains newset element then HashSet.Remove newset element
    else HashSet.Add newset element) s

/-- Go: `Merge`: `for element := range other.All() { set.Add(element) }` (returns the final receiver state). -/
def HashSet.Merge (s o : HashSet α) : HashSet α :=
  o.foldl (fun set element => HashSet.Add set element) s

/-- Go: `Retain`: `for item := range set { if !other.Contains(item) { set.Remove(item) } }`.
The loop ranges over the receiver while removing only the produced entry,
so every original key is produced exactly once. -/
def HashSet.Retain (s o : HashSet α) : HashSet α :=
  s.foldl (fun set item =>
    if HashSet.Contains o item then set else HashSet.Remove set item) s

/-- Go: `Subtract`: `for item := range set { if other.Contains(item) { set.Remove(item) } }`. -/
def HashSet.Subtract (s o : HashSet α) : HashSet α :=
  s.foldl (fun set item =>
    if HashSet.Contains o item then HashSet.Remove set item else set) s

/-- Go: `Xor`: `for element := range other.All() { if set.Contains(element) { set.Remove(element) } else { set.Add(element) } }`. -/
def HashSet.Xor (s o : HashSet α) : HashSet α :=
  o.foldl (fun set element =>
    if HashSet.Contains set element then HashSet.Remove set element
    else HashSet.Add set element) s

/-- `set.Merge(set)`: the loop ranges over the live receiver; `Add` of a
present key never changes the map, so the produced sequence is the original
key list and both the iteration source and the mutated state are `s`. -/
def HashSet.MergeSelf (s : HashSet α) : HashSet α :=
  s.foldl (fun set element => HashSet.Add set element) s

/-- `set.Retain(set)`: `other.Contains` reads the live receiver (`set`),
so the test is against the evolving state. -/
def HashSet.RetainSelf (s : HashSet α) : HashSet α :=
  s.foldl (fun set item =>
    if HashSet.Contains set item then set else HashSet.Remove set item) s

/-- `set.Subtract(set)`: `other.Contains` reads the live receiver. Only
produced entries are removed, so the produced sequence is the original key
list. -/
def HashSet.SubtractSelf (s : HashSet α) : HashSet α :=
  s.foldl (fun set item =>
    if HashSet.Contains set item then HashSet.Remove set item else set) s

/-- `set.Xor(set)`: `other.All()` iterates the live receiver; the loop only
removes produced entries (the `Add` branch needs the produced key to be
absent, impossible), so the produced sequence is the original key list. -/
def HashSet.XorSelf (s : HashSet α) : HashSet α :=
  s.foldl (fun set element =>
    if HashSet.Contains set element then HashSet.Remove set element
    else HashSet.Add set element) s

/-- Go: `Equals`: `if set.Len() != other.Len() { return false }; for item := range set { if !other.Contains(item) { return false } }; return true`. -/
def HashSet.Equals (s o : HashSet α) : Bool :=
  if HashSet.Len s ≠ HashSet.Len o then false
  else s.all (fun item => HashSet.Contains o item)

/-- Go: `IsSuperset`: `if set.Len() < other.Len() { return false }; for item := range set { if !other.Contains(item) { return false } }; return true`. -/
def HashSet.IsSuperset (s o : HashSet α) : Bool :=
  if HashSet.Len s < HashSet.Len o then false
  else s.all (fun item => HashSet.Contains o item)

/-- Go: `IsSubset`: `if set.Len() > other.Len() { return false }; for item := range set { if !other.Contains(item) { return false } }; return true`. -/
def HashSet.IsSubset (s o : HashSet α) : Bool :=
  if HashSet.Len s > HashSet.Len o then false
  else s.all (fun item => HashSet.Contains o item)

/-- Go: `String`: `elements := ...Sprintf("%v", item)...; return fmt.Sprintf("Set{%s}", strings.Join(elements, ", "))`. -/
def HashSet.String [ToString α] (s : HashSet α) : String :=
  "Set\x7b" ++ String.intercalate ", " (s.map (fun item => toString item)) ++ "\x7d"

/-! ### Basic lemmas about the primitive operations -/

theorem HashSet.contains_iff (s : HashSet α) (x : α) :
    HashSet.Contains s x = true ↔ x ∈ s := by
  simp [HashSet.Contains]

theorem HashSet.mem_Add (s : HashSet α) (a x : α) :
    x ∈ HashSet.Add s a ↔ x ∈ s ∨ x = a := by
  by_cases h : a ∈ s
  · simp only [HashSet.Add, if_pos h]
    constructor
    · exact Or.inl
    · rintro (hx | rfl)
      · exact hx
      · exact h
  · simp [HashSet.Add, if_neg h]

theorem HashSet.nodup_Add (s : HashSet α) (a : α) (hs : s.Nodup) :
    (HashSet.Add s a).Nodup := by
  by_cases h : a ∈ s
  · simpa [HashSet.Add, if_pos h] using hs
  · simp [HashSet.Add, if_neg h, List.nodup_append, hs, h]

/-! ### The union fold (shared by Union and Merge) -/

theorem HashSet.Merge_eq_Union (s o : HashSet α) :
    HashSet.Merge s o = HashSet.Union s o := rfl

theorem HashSet.mem_Union (s o : HashSet α) (x : α) :
    x ∈ HashSet.Union s o ↔ x ∈ s ∨ x ∈ o := by
  unfold HashSet.Union
  induction o generalizing s with
  | nil => simp
  | cons b o ih =>
    rw [List.foldl_cons, ih]
    rw [HashSet.mem_Add]
    simp only [List.mem_cons]
    tauto

theorem HashSet.nodup_Union (s o : HashSet α) (hs : s.Nodup) :
    (HashSet.Union s o).Nodup := by
  unfold HashSet.Union
  induction o generalizing s with
  | nil => exact hs
  | cons b o ih => exact ih _ (HashSet.nodup_Add s b hs)

/-! ### The intersection fold -/

theorem HashSet.mem_interFold (s l init : HashSet α) (x : α) :
    x ∈ l.foldl (fun newset element =>
        if HashSet.Contains s element then HashSet.Add newset element else newset) init ↔
      x ∈ init ∨ (x ∈ l ∧ x ∈ s) := by
  induction l generalizing init with
  | nil => simp
  | cons b l ih =>
    rw [List.foldl_cons]
    by_cases hb : b ∈ s
    · rw [if_pos ((HashSet.contains_iff s b).2 hb), ih, HashSet.mem_Add]
      simp only [List.mem_cons]
      constructor
      · rintro ((h | rfl) | h) <;> tauto
      · tauto
    · rw [if_neg (by simp [HashSet.contains_iff, hb]), ih]
      simp only [List.mem_cons]
      constructor
      · tauto
      · rintro (h | ⟨(rfl | h), hx⟩) <;> tauto

theorem HashSet.nodup_interFold (s l init : HashSet α) (h : init.Nodup) :
    (l.foldl (fun newset element =>
        if HashSet.Contains s element then HashSet.Add newset element else newset) init).Nodup := by
  induction l generalizing init with
  | nil => exact h
  | cons b l ih =>
    rw [List.foldl_cons]
    by_cases hb : HashSet.Contains s b
    · rw [if_pos hb]; exact ih _ (HashSet.nodup_Add init b h)
    · rw [if_neg hb]; exact ih _ h

theorem HashSet.mem_Intersection (s o : HashSet α) (x : α) :
    x ∈ HashSet.Intersection s o ↔ x ∈ s ∧ x ∈ o := by
  unfold HashSet.Intersection
  rw [HashSet.mem_interFold]
  simp [and_comm]

theorem HashSet.nodup_Intersection (s o : HashSet α) :
    (HashSet.Intersection s o).Nodup :=
  HashSet.nodup_interFold s o [] List.nodup_nil

/-! ### The difference fold -/

theorem HashSet.mem_diffFold (o l init : HashSet α) (x : α) :
    x ∈ l.foldl (fun newset element =>
        if HashSet.Contains o element then newset else HashSet.Add newset element) init ↔
      x ∈ init ∨ (x ∈ l ∧ x ∉ o) := by
  induction l generalizing init with
  | nil => simp
  | cons b l ih =>
    rw [List.foldl_cons]
    by_cases hb : b ∈ o
    · rw [if_pos ((HashSet.contains_iff o b).2 hb), ih]
      simp only [List.mem_cons]
      constructor
      · tauto
      · rintro (h | ⟨(rfl | h), hx⟩) <;> tauto
    · rw [if_neg (by simp [HashSet.contains_iff, hb]), ih, HashSet.mem_Add]
      simp only [List.mem_cons]
      constructor
      · rintro ((h | rfl) | h) <;> tauto
      · tauto

theorem HashSet.nodup_diffFold (o l init : HashSet α) (h : init.Nodup) :
    (l.foldl (fun newset element =>
        if HashSet.Contains o element then newset else HashSet.Add newset element) init).Nodup := by
  induction l generalizing init with
  | nil => exact h
  | cons b l ih =>
    rw [List.foldl_cons]
    by_cases hb : HashSet.Contains o b
    · rw [if_pos hb]; exact ih _ h
    · rw [if_neg hb]; exact ih _ (HashSet.nodup_Add init b h)

theorem HashSet.mem_Difference (s o : HashSet α) (x : α) :
    x ∈ HashSet.Difference s o ↔ x ∈ s ∧ x ∉ o := by
  unfold HashSet.Difference
  rw [HashSet.mem_diffFold]
  simp

theorem HashSet.nodup_Difference (s o : HashSet α) :
    (HashSet.Difference s o).Nodup :=
  HashSet.nodup_diffFold o s [] List.nodup_nil

/-! ### The toggle fold (shared by SymmetricDifference and Xor) -/

theorem HashSet.Xor_eq_SymmetricDifference (s o : HashSet α) :
    HashSet.Xor s o = HashSet.SymmetricDifference s o := rfl

theorem HashSet.mem_toggleFold (l st : HashSet α) (hst : st.Nodup) (hl : l.Nodup) (x : α) :
    x ∈ l.foldl (fun set element =>
        if HashSet.Contains set element then HashSet.Remove set element
        else HashSet.Add set element) st ↔
      (x ∈ st ∧ x ∉ l) ∨ (x ∉ st ∧ x ∈ l) := by
  induction l generalizing st with
  | nil => simp
  | cons b l ih =>
    rw [List.nodup_cons] at hl
    rw [List.foldl_cons]
    by_cases hb : b ∈ st
    · rw [if_pos ((HashSet.contains_iff st b).2 hb),
        ih (HashSet.Remove st b) (hst.erase b) hl.2]
      simp only [HashSet.Remove, List.Nodup.mem_erase_iff hst, List.mem_cons]
      by_cases hxb : x = b
      · subst hxb
        simp [hb, hl.1]
      · simp [hxb]
    · rw [if_neg (by simp [HashSet.contains_iff, hb]),
        ih _ (HashSet.nodup_Add st b hst) hl.2]
      rw [HashSet.mem_Add]
      simp only [List.mem_cons]
      by_cases hxb : x = b
      · subst hxb
        simp [hb, hl.1]
      · simp [hxb]

theorem HashSet.nodup_toggleFold (l st : HashSet α) (hst : st.Nodup) :
    (l.foldl (fun set element =>
        if HashSet.Contains set element then HashSet.Remove set element
        else HashSet.Add set element) st).Nodup := by
  induction l generalizing st with
  | nil => exact hst
  | cons b l ih =>
    rw [List.foldl_cons]
    by_cases hb : HashSet.Contains st b
    · rw [if_pos hb]; exact ih _ (hst.erase b)
    · rw [if_neg hb]; exact ih _ (HashSet.nodup_Add st b hst)

theorem HashSet.mem_SymmetricDifference (s o : HashSet α) (hs : s.Nodup) (ho : o.Nodup)
    (x : α) :
    x ∈ HashSet.SymmetricDifference s o ↔ (x ∈ s ∧ x ∉ o) ∨ (x ∉ s ∧ x ∈ o) :=
  HashSet.mem_toggleFold o s hs ho x

theorem HashSet.nodup_SymmetricDifference (s o : HashSet α) (hs : s.Nodup) :
    (HashSet.SymmetricDifference s o).Nodup :=
  HashSet.nodup_toggleFold o s hs

/-! ### The retain and subtract folds -/

theorem HashSet.mem_retainFold (o l st : HashSet α) (hst : st.Nodup) (x : α) :
    x ∈ l.foldl (fun set item =>
        if HashSet.Contains o item then set else HashSet.Remove set item) st ↔
      x ∈ st ∧ (x ∉ l ∨ x ∈ o) := by
  induction l generalizing st with
  | nil => simp
  | cons b l ih =>
    rw [List.foldl_cons]
    by_cases hb : b ∈ o
    · rw [if_pos ((HashSet.contains_iff o b).2 hb), ih _ hst]
      simp only [List.mem_cons]
      by_cases hxb : x = b
      · subst hxb; simp [hb]
      · simp [hxb]
    · rw [if_neg (by simp [HashSet.contains_iff, hb]),
        ih (HashSet.Remove st b) (hst.erase b)]
      simp only [HashSet.Remove, List.Nodup.mem_erase_iff hst, List.mem_cons]
      by_cases hxb : x = b
      · subst hxb; simp [hb]
      · simp [hxb]

theorem HashSet.nodup_retainFold (o l st : HashSet α) (hst : st.Nodup) :
    (l.foldl (fun set item =>
        if HashSet.Contains o item then set else HashSet.Remove set item) st).Nodup := by
  induction l generalizing st with
  | nil => exact hst
  | cons b l ih =>
    rw [List.foldl_cons]
    by_cases hb : HashSet.Contains o b
    · rw [if_pos hb]; exact ih _ hst
    · rw [if_neg hb]; exact ih _ (hst.erase b)

theorem HashSet.mem_Retain (s o : HashSet α) (hs : s.Nodup) (x : α) :
    x ∈ HashSet.Retain s o ↔ x ∈ s ∧ x ∈ o := by
  unfold HashSet.Retain
  rw [HashSet.mem_retainFold o s s hs]
  tauto

theorem HashSet.nodup_Retain (s o : HashSet α) (hs : s.Nodup) :
    (HashSet.Retain s o).Nodup :=
  HashSet.nodup_retainFold o s s hs

theorem HashSet.mem_subtractFold (o l st : HashSet α) (hst : st.Nodup) (x : α) :
    x ∈ l.foldl (fun set item =>
        if HashSet.Contains o item then HashSet.Remove set item else set) st ↔
      x ∈ st ∧ (x ∉ l ∨ x ∉ o) := by
  induction l generalizing st with
  | nil => simp
  | cons b l ih =>
    rw [List.foldl_cons]
    by_cases hb : b ∈ o
    · rw [if_pos ((HashSet.contains_iff o b).2 hb),
        ih (HashSet.Remove st b) (hst.erase b)]
      simp only [HashSet.Remove, List.Nodup.mem_erase_iff hst, List.mem_cons]
      by_cases hxb : x = b
      · subst hxb; simp [hb]
      · simp [hxb]
    · rw [if_neg (by simp [HashSet.contains_iff, hb]), ih _ hst]
      simp only [List.mem_cons]
      by_cases hxb : x = b
      · subst hxb; simp [hb]
      · simp [hxb]

theorem HashSet.nodup_subtractFold (o l st : HashSet α) (hst : st.Nodup) :
    (l.foldl (fun set item =>
        if HashSet.Contains o item then HashSet.Remove set item else set) st).Nodup := by
  induction l generalizing st with
  | nil => exact hst
  | cons b l ih =>
    rw [List.foldl_cons]
    by_cases hb : HashSet.Contains o b
    · rw [if_pos hb]; exact ih _ (hst.erase b)
    · rw [if_neg hb]; exact ih _ hst

theorem HashSet.mem_Subtract (s o : HashSet α) (hs : s.Nodup) (x : α) :
    x ∈ HashSet.Subtract s o ↔ x ∈ s ∧ x ∉ o := by
  unfold HashSet.Subtract
  rw [HashSet.mem_subtractFold o s s hs]
  tauto

theorem HashSet.nodup_Subtract (s o : HashSet α) (hs : s.Nodup) :
    (HashSet.Subtract s o).Nodup :=
  HashSet.nodup_subtractFold o s s hs

/-! ### Self-aliased in-place operations -/

theorem HashSet.foldl_Add_of_subset (l st : HashSet α) (h : l ⊆ st) :
    l.foldl (fun set element => HashSet.Add set element) st = st := by
  induction l generalizing st with
  | nil => rfl
  | cons b l ih =>
    have hb : b ∈ st := h (List.mem_cons_self b l)
    rw [List.foldl_cons]
    have hAdd : HashSet.Add st b = st := by rw [HashSet.Add, if_pos hb]
    rw [hAdd]
    exact ih st (fun x hx => h (List.mem_cons_of_mem b hx))

theorem HashSet.MergeSelf_eq (s : HashSet α) : HashSet.MergeSelf s = s :=
  HashSet.foldl_Add_of_subset s s (fun _ hx => hx)

theorem HashSet.retainSelfFold_eq (l st : HashSet α) (h : l ⊆ st) :
    l.foldl (fun set item =>
      if HashSet.Contains set item then set else HashSet.Remove set item) st = st := by
  induction l generalizing st with
  | nil => rfl
  | cons b l ih =>
    have hb : b ∈ st := h (List.mem_cons_self b l)
    rw [List.foldl_cons, if_pos ((HashSet.contains_iff st b).2 hb)]
    exact ih st (fun x hx => h (List.mem_cons_of_mem b hx))

theorem HashSet.RetainSelf_eq (s : HashSet α) : HashSet.RetainSelf s = s :=
  HashSet.retainSelfFold_eq s s (fun _ hx => hx)

theorem HashSet.mem_subtractSelfFold (l st : HashSet α) (hst : st.Nodup) (hl : l.Nodup)
    (h : l ⊆ st) (x : α) :
    x ∈ l.foldl (fun set item =>
        if HashSet.Contains set item then HashSet.Remove set item else set) st ↔
      x ∈ st ∧ x ∉ l := by
  induction l generalizing st with
  | nil => simp
  | cons b l ih =>
    rw [List.nodup_cons] at hl
    have hb : b ∈ st := h (List.mem_cons_self b l)
    have hsub : l ⊆ HashSet.Remove st b := by
      intro a ha
      have hab : a ≠ b := fun hab => hl.1 (hab ▸ ha)
      exact (List.Nodup.mem_erase_iff hst).2 ⟨hab, h (List.mem_cons_of_mem b ha)⟩
    rw [List.foldl_cons, if_pos ((HashSet.contains_iff st b).2 hb),
      ih (HashSet.Remove st b) (hst.erase b) hl.2 hsub]
    simp only [HashSet.Remove, List.Nodup.mem_erase_iff hst, List.mem_cons]
    by_cases hxb : x = b
    · subst hxb; simp
    · simp [hxb]

theorem HashSet.SubtractSelf_eq_nil (s : HashSet α) (hs : s.Nodup) :
    HashSet.SubtractSelf s = [] := by
  rw [List.eq_nil_iff_forall_not_mem]
  intro x hx
  have := (HashSet.mem_subtractSelfFold s s hs hs (fun _ h => h) x).1 hx
  exact this.2 this.1

theorem HashSet.mem_xorSelfFold (l st : HashSet α) (hst : st.Nodup) (hl : l.Nodup)
    (h : l ⊆ st) (x : α) :
    x ∈ l.foldl (fun set element =>
        if HashSet.Contains set element then HashSet.Remove set element
        else HashSet.Add set element) st ↔
      x ∈ st ∧ x ∉ l := by
  induction l generalizing st with
  | nil => simp
  | cons b l ih =>
    rw [List.nodup_cons] at hl
    have hb : b ∈ st := h (List.mem_cons_self b l)
    have hsub : l ⊆ HashSet.Remove st b := by
      intro a ha
      have hab : a ≠ b := fun hab => hl.1 (hab ▸ ha)
      exact (List.Nodup.mem_erase_iff hst).2 ⟨hab, h (List.mem_cons_of_mem b ha)⟩
    rw [List.foldl_cons, if_pos ((HashSet.contains_iff st b).2 hb),
      ih (HashSet.Remove st b) (hst.erase b) hl.2 hsub]
    simp only [HashSet.Remove, List.Nodup.mem_erase_iff hst, List.mem_cons]
    by_cases hxb : x = b
    · subst hxb; simp
    · simp [hxb]

theorem HashSet.XorSelf_eq_nil (s : HashSet α) (hs : s.Nodup) :
    HashSet.XorSelf s = [] := by
  rw [List.eq_nil_iff_forall_not_mem]
  intro x hx
  have := (HashSet.mem_xorSelfFold s s hs hs (fun _ h => h) x).1 hx
  exact this.2 this.1

/-! ### Relational predicates -/

theorem HashSet.all_contains_iff_subset (s o : HashSet α) :
    s.all (fun item => HashSet.Contains o item) = true ↔ s ⊆ o := by
  rw [List.all_eq_true, List.subset_def]
  constructor
  · intro h x hx
    exact (HashSet.contains_iff o x).1 (h x hx)
  · intro h x hx
    exact (HashSet.contains_iff o x).2 (h hx)

theorem HashSet.length_le_of_nodup_subset (s o : HashSet α) (hs : s.Nodup) (h : s ⊆ o) :
    s.length ≤ o.length :=
  (hs.subperm h).length_le

theorem HashSet.IsSubset_iff_subset (s o : HashSet α) (hs : s.Nodup) :
    HashSet.IsSubset s o = true ↔ s ⊆ o := by
  unfold HashSet.IsSubset
  by_cases h : HashSet.Len s > HashSet.Len o
  · rw [if_pos h]
    simp only [Bool.false_eq_true, false_iff]
    intro hsub
    exact absurd (HashSet.length_le_of_nodup_subset s o hs hsub) (Nat.not_le_of_lt h)
  · rw [if_neg h]
    exact HashSet.all_contains_iff_subset s o

theorem HashSet.Equals_iff_ext (s o : HashSet α) (hs : s.Nodup) (ho : o.Nodup) :
    HashSet.Equals s o = true ↔ ∀ x, x ∈ s ↔ x ∈ o := by
  unfold HashSet.Equals
  by_cases h : HashSet.Len s ≠ HashSet.Len o
  · rw [if_pos h]
    simp only [Bool.false_eq_true, false_iff]
    intro hext
    have h1 : s ⊆ o := fun x hx => (hext x).1 hx
    have h2 : o ⊆ s := fun x hx => (hext x).2 hx
    exact h (Nat.le_antisymm (HashSet.length_le_of_nodup_subset s o hs h1)
      (HashSet.length_le_of_nodup_subset o s ho h2))
  · rw [if_neg h]
    rw [HashSet.all_contains_iff_subset]
    constructor
    · intro hsub
      have heq : HashSet.Len s = HashSet.Len o := not_not.mp h
      have hperm : s.Perm o :=
        (hs.subperm hsub).perm_of_length_le (Nat.le_of_eq heq.symm)
      exact fun x => hperm.mem_iff
    · intro hext x hx
      exact (hext x).1 hx

theorem HashSet.Equals_refl (s : HashSet α) : HashSet.Equals s s = true := by
  unfold HashSet.Equals
  rw [if_neg (by simp)]
  exact (HashSet.all_contains_iff_subset s s).2 (fun _ hx => hx)

theorem HashSet.Equals_of_ext (s o : HashSet α) (hs : s.Nodup) (ho : o.Nodup)
    (h : ∀ x, x ∈ s ↔ x ∈ o) : HashSet.Equals s o = true :=
  (HashSet.Equals_iff_ext s o hs ho).2 h

/-! ### Heap model for storage-sharing claims

A Go `HashSet[T]` value is a reference to a shared mutable map.  `Store`
models the heap: a list of map contents addressed by references (indices).
Each `...Prog` definition mirrors the write footprint of the corresponding
method in src/hashset.go: the allocating operations write only a freshly
allocated map (`maps.Clone` / `NewHashSet` followed by writes to `newset`),
and the in-place operations write only through the receiver reference. -/

structure Store (α : Type) where
  mem : List (HashSet α)

def Store.get (σ : Store α) (r : Nat) : HashSet α :=
  σ.mem.getD r []

def Store.put (σ : Store α) (r : Nat) (v : HashSet α) : Store α :=
  ⟨σ.mem.set r v⟩

def Store.alloc (σ : Store α) (v : HashSet α) : Store α × Nat :=
  (⟨σ.mem ++ [v]⟩, σ.mem.length)

/-- `Union` clones the receiver into a fresh map and only writes there. -/
def Store.unionProg (σ : Store α) (a b : Nat) : Store α × Nat :=
  Store.alloc σ (HashSet.Union (Store.get σ a) (Store.get σ b))

/-- `Intersection` writes only a fresh `NewHashSet`. -/
def Store.intersectionProg (σ : Store α) (a b : Nat) : Store α × Nat :=
  Store.alloc σ (HashSet.Intersection (Store.get σ a) (Store.get σ b))

/-- `Difference` writes only a fresh `NewHashSet`. -/
def Store.differenceProg (σ : Store α) (a b : Nat) : Store α × Nat :=
  Store.alloc σ (HashSet.Difference (Store.get σ a) (Store.get σ b))

/-- `SymmetricDifference` clones the receiver into a fresh map and only writes there. -/
def Store.symmetricDifferenceProg (σ : Store α) (a b : Nat) : Store α × Nat :=
  Store.alloc σ (HashSet.SymmetricDifference (Store.get σ a) (Store.get σ b))

/-- `Merge` writes only through the receiver reference `a`; if the argument
aliases the receiver the self-aliased loop semantics apply. -/
def Store.mergeProg (σ : Store α) (a b : Nat) : Store α :=
  if a = b then Store.put σ a (HashSet.MergeSelf (Store.get σ a))
  else Store.put σ a (HashSet.Merge (Store.get σ a) (Store.get σ b))

/-- `Retain` writes only through the receiver reference `a`. -/
def Store.retainProg (σ : Store α) (a b : Nat) : Store α :=
  if a = b then Store.put σ a (HashSet.RetainSelf (Store.get σ a))
  else Store.put σ a (HashSet.Retain (Store.get σ a) (Store.get σ b))

/-- `Subtract` writes only through the receiver reference `a`. -/
def Store.subtractProg (σ : Store α) (a b : Nat) : Store α :=
  if a = b then Store.put σ a (HashSet.SubtractSelf (Store.get σ a))
  else Store.put σ a (HashSet.Subtract (Store.get σ a) (Store.get σ b))

/-- `Xor` writes only through the receiver reference `a`. -/
def Store.xorProg (σ : Store α) (a b : Nat) : Store α :=
  if a = b then Store.put σ a (HashSet.XorSelf (Store.get σ a))
  else Store.put σ a (HashSet.Xor (Store.get σ a) (Store.get σ b))

/-- An arbitrary later mutation of the set referenced by `r` (here: `Add`). -/
def Store.addProg (σ : Store α) (r : Nat) (x : α) : Store α :=
  Store.put σ r (HashSet.Add (Store.get σ r) x)

theorem Store.get_put_ne (σ : Store α) (a b : Nat) (v : HashSet α) (h : a ≠ b) :
    Store.get (Store.put σ a v) b = Store.get σ b := by
  unfold Store.get Store.put
  rw [List.getD_eq_getElem?_getD, List.getD_eq_getElem?_getD, List.getElem?_set_ne h]

theorem Store.get_alloc_old (σ : Store α) (v : HashSet α) (r : Nat)
    (h : r < σ.mem.length) :
    Store.get (Store.alloc σ v).1 r = Store.get σ r := by
  unfold Store.get Store.alloc
  rw [List.getD_eq_getElem?_getD, List.getD_eq_getElem?_getD, List.getElem?_append,
    if_pos h]

theorem Store.get_alloc_fresh (σ : Store α) (v : HashSet α) :
    Store.get (Store.alloc σ v).1 (Store.alloc σ v).2 = v := by
  unfold Store.get Store.alloc
  rw [List.getD_eq_getElem?_getD, List.getElem?_concat_length]
  rfl

theorem Store.alloc_fresh_ne (σ : Store α) (v : HashSet α) (r : Nat)
    (h : r < σ.mem.length) : r ≠ (Store.alloc σ v).2 :=
  Nat.ne_of_lt h

/-! ### Claim theorems -/

/-- C1: the spec (and the method's own doc comment) say `A.IsSuperset(B)` is
true iff A contains every element of B; but at A = {1,2,3}, B = {1,2} the
code returns false, because after the cardinality guard it iterates the
receiver's own elements and requires each to be in the argument (testing
A ⊆ B instead of B ⊆ A).  B really is contained in A, as the correctly
implemented `IsSubset` certifies, and `A.Equals(B)` is false as the claim
also states. -/
theorem c1_IsSuperset_divergence :
    HashSet.IsSuperset ([1, 2, 3] : HashSet Int) [1, 2] = false ∧
    HashSet.IsSubset ([1, 2] : HashSet Int) [1, 2, 3] = true ∧
    HashSet.Equals ([1, 2, 3] : HashSet Int) [1, 2] = false := by
  decide

/-- C2 counterexample: the claim says `S.Xor(S)` leaves S unchanged, but at
S = {1} the loop iterates the live aliased map and removes every produced
element, leaving S empty, so the result does not equal {1}. -/
theorem c2_xor_self_counterexample :
    HashSet.XorSelf ([1] : HashSet Int) = [] ∧
    HashSet.Equals (HashSet.XorSelf ([1] : HashSet Int)) [1] = false := by
  decide

/-- C2 (amended): with receiver and argument aliasing the same live set,
`Merge(self)` and `Retain(self)` leave the set unchanged, while
`Subtract(self)` and `Xor(self)` both leave it empty. -/
theorem c2_self_operations (s : HashSet α) (hs : s.Nodup) :
    HashSet.MergeSelf s = s ∧ HashSet.RetainSelf s = s ∧
    HashSet.SubtractSelf s = [] ∧ HashSet.XorSelf s = [] :=
  ⟨HashSet.MergeSelf_eq s, HashSet.RetainSelf_eq s,
    HashSet.SubtractSelf_eq_nil s hs, HashSet.XorSelf_eq_nil s hs⟩

/-- C2 witness: the amended claim at the concrete set {1, 2}. -/
theorem c2_self_operations_witness :
    HashSet.MergeSelf ([1, 2] : HashSet Int) = [1, 2] ∧
    HashSet.RetainSelf ([1, 2] : HashSet Int) = [1, 2] ∧
    HashSet.SubtractSelf ([1, 2] : HashSet Int) = [] ∧
    HashSet.XorSelf ([1, 2] : HashSet Int) = [] :=
  c2_self_operations ([1, 2] : HashSet Int) (by decide)

/-- C5: `A.IsSubset(B)` and `B.IsSubset(A)` are both true exactly when
`A.Equals(B)` is true. -/
theorem c5_mutual_subset_iff_equals (A B : HashSet α) (hA : A.Nodup) (hB : B.Nodup) :
    (HashSet.IsSubset A B = true ∧ HashSet.IsSubset B A = true) ↔
      HashSet.Equals A B = true := by
  rw [HashSet.IsSubset_iff_subset A B hA, HashSet.IsSubset_iff_subset B A hB,
    HashSet.Equals_iff_ext A B hA hB]
  constructor
  · rintro ⟨h1, h2⟩ x
    exact ⟨fun hx => h1 hx, fun hx => h2 hx⟩
  · intro h
    exact ⟨fun x hx => (h x).1 hx, fun x hx => (h x).2 hx⟩

/-- C5 witness: the equivalence at A = {1, 2}, B = {2, 1}. -/
theorem c5_mutual_subset_iff_equals_witness :
    (HashSet.IsSubset ([1, 2] : HashSet Int) [2, 1] = true ∧
      HashSet.IsSubset ([2, 1] : HashSet Int) [1, 2] = true) ↔
      HashSet.Equals ([1, 2] : HashSet Int) [2, 1] = true :=
  c5_mutual_subset_iff_equals [1, 2] [2, 1] (by decide) (by decide)

/-- C10: the relational predicates are reflexive on every set, the empty
set included: `A.Equals(A)`, `A.IsSubset(A)` and `A.IsSuperset(A)` all
return true. -/
theorem c10_reflexivity (s : HashSet α) :
    HashSet.Equals s s = true ∧ HashSet.IsSubset s s = true ∧
    HashSet.IsSuperset s s = true := by
  refine ⟨HashSet.Equals_refl s, ?_, ?_⟩
  · unfold HashSet.IsSubset
    rw [if_neg (lt_irrefl (HashSet.Len s))]
    exact (HashSet.all_contains_iff_subset s s).2 (fun _ hx => hx)
  · unfold HashSet.IsSuperset
    rw [if_neg (lt_irrefl (HashSet.Len s))]
    exact (HashSet.all_contains_iff_subset s s).2 (fun _ hx => hx)

/-- C3: membership in `Union`, `Intersection`, `Difference` and
`SymmetricDifference` is disjunction, conjunction, relative complement and
exclusive-or of membership in the operands; and at A = {1,2,3},
B = {3,4,5} the four results are {1,2,3,4,5} (of length 5), {3}, {1,2}
and {1,2,4,5}. -/
theorem c3_algebra_membership (A B : HashSet Int) (hA : A.Nodup) (hB : B.Nodup) :
    (∀ x : Int, x ∈ HashSet.Union A B ↔ x ∈ A ∨ x ∈ B) ∧
    (∀ x : Int, x ∈ HashSet.Intersection A B ↔ x ∈ A ∧ x ∈ B) ∧
    (∀ x : Int, x ∈ HashSet.Difference A B ↔ x ∈ A ∧ x ∉ B) ∧
    (∀ x : Int, x ∈ HashSet.SymmetricDifference A B ↔
      (x ∈ A ∧ x ∉ B) ∨ (x ∉ A ∧ x ∈ B)) ∧
    HashSet.Equals (HashSet.Union ([1, 2, 3] : HashSet Int) [3, 4, 5]) [1, 2, 3, 4, 5] = true ∧
    HashSet.Len (HashSet.Union ([1, 2, 3] : HashSet Int) [3, 4, 5]) = 5 ∧
    HashSet.Equals (HashSet.Intersection ([1, 2, 3] : HashSet Int) [3, 4, 5]) [3] = true ∧
    HashSet.Equals (HashSet.Difference ([1, 2, 3] : HashSet Int) [3, 4, 5]) [1, 2] = true ∧
    HashSet.Equals (HashSet.SymmetricDifference ([1, 2, 3] : HashSet Int) [3, 4, 5]) [1, 2, 4, 5] = true :=
  ⟨HashSet.mem_Union A B, HashSet.mem_Intersection A B, HashSet.mem_Difference A B,
    HashSet.mem_SymmetricDifference A B hA hB,
    by decide, by decide, by decide, by decide, by decide⟩

/-- C3 witness: the membership characterizations applied at A = {1,2,3},
B = {3,4,5} and the element 3. -/
theorem c3_algebra_membership_witness :
    (3 ∈ HashSet.Union ([1, 2, 3] : HashSet Int) [3, 4, 5] ↔
      3 ∈ ([1, 2, 3] : HashSet Int) ∨ 3 ∈ ([3, 4, 5] : HashSet Int)) ∧
    (3 ∈ HashSet.Intersection ([1, 2, 3] : HashSet Int) [3, 4, 5] ↔
      3 ∈ ([1, 2, 3] : HashSet Int) ∧ 3 ∈ ([3, 4, 5] : HashSet Int)) ∧
    (3 ∈ HashSet.SymmetricDifference ([1, 2, 3] : HashSet Int) [3, 4, 5] ↔
      (3 ∈ ([1, 2, 3] : HashSet Int) ∧ 3 ∉ ([3, 4, 5] : HashSet Int)) ∨
      (3 ∉ ([1, 2, 3] : HashSet Int) ∧ 3 ∈ ([3, 4, 5] : HashSet Int))) :=
  ⟨(c3_algebra_membership [1, 2, 3] [3, 4, 5] (by decide) (by decide)).1 3,
    (c3_algebra_membership [1, 2, 3] [3, 4, 5] (by decide) (by decide)).2.1 3,
    (c3_algebra_membership [1, 2, 3] [3, 4, 5] (by decide) (by decide)).2.2.2.1 3⟩

/-- C4: running an in-place operation on a copy of A against B produces a
set `Equals`-equal to the corresponding allocating operation: Merge/Union,
Retain/Intersection, Subtract/Difference, Xor/SymmetricDifference. -/
theorem c4_inplace_allocating_equivalence (A B : HashSet α) (hA : A.Nodup) (hB : B.Nodup) :
    HashSet.Equals (HashSet.Merge A B) (HashSet.Union A B) = true ∧
    HashSet.Equals (HashSet.Retain A B) (HashSet.Intersection A B) = true ∧
    HashSet.Equals (HashSet.Subtract A B) (HashSet.Difference A B) = true ∧
    HashSet.Equals (HashSet.Xor A B) (HashSet.SymmetricDifference A B) = true := by
  refine ⟨?_, ?_, ?_, ?_⟩
  · rw [HashSet.Merge_eq_Union]
    exact HashSet.Equals_refl _
  · refine HashSet.Equals_of_ext _ _ (HashSet.nodup_Retain A B hA)
      (HashSet.nodup_Intersection A B) (fun x => ?_)
    rw [HashSet.mem_Retain A B hA, HashSet.mem_Intersection]
  · refine HashSet.Equals_of_ext _ _ (HashSet.nodup_Subtract A B hA)
      (HashSet.nodup_Difference A B) (fun x => ?_)
    rw [HashSet.mem_Subtract A B hA, HashSet.mem_Difference]
  · rw [HashSet.Xor_eq_SymmetricDifference]
    exact HashSet.Equals_refl _

/-- C4 witness: the equivalences at A = {1, 2}, B = {2, 3}. -/
theorem c4_inplace_allocating_equivalence_witness :
    HashSet.Equals (HashSet.Merge ([1, 2] : HashSet Int) [2, 3])
      (HashSet.Union ([1, 2] : HashSet Int) [2, 3]) = true ∧
    HashSet.Equals (HashSet.Retain ([1, 2] : HashSet Int) [2, 3])
      (HashSet.Intersection ([1, 2] : HashSet Int) [2, 3]) = true ∧
    HashSet.Equals (HashSet.Subtract ([1, 2] : HashSet Int) [2, 3])
      (HashSet.Difference ([1, 2] : HashSet Int) [2, 3]) = true ∧
    HashSet.Equals (HashSet.Xor ([1, 2] : HashSet Int) [2, 3])
      (HashSet.SymmetricDifference ([1, 2] : HashSet Int) [2, 3]) = true :=
  c4_inplace_allocating_equivalence [1, 2] [2, 3] (by decide) (by decide)

/-- C6: `Union`, `Intersection` and `SymmetricDifference` are commutative
up to `Equals`. -/
theorem c6_commutativity (A B : HashSet α) (hA : A.Nodup) (hB : B.Nodup) :
    HashSet.Equals (HashSet.Union A B) (HashSet.Union B A) = true ∧
    HashSet.Equals (HashSet.Intersection A B) (HashSet.Intersection B A) = true ∧
    HashSet.Equals (HashSet.SymmetricDifference A B)
      (HashSet.SymmetricDifference B A) = true := by
  refine ⟨HashSet.Equals_of_ext _ _ (HashSet.nodup_Union A B hA)
      (HashSet.nodup_Union B A hB) (fun x => ?_),
    HashSet.Equals_of_ext _ _ (HashSet.nodup_Intersection A B)
      (HashSet.nodup_Intersection B A) (fun x => ?_),
    HashSet.Equals_of_ext _ _ (HashSet.nodup_SymmetricDifference A B hA)
      (HashSet.nodup_SymmetricDifference B A hB) (fun x => ?_)⟩
  · rw [HashSet.mem_Union, HashSet.mem_Union]
    exact or_comm
  · rw [HashSet.mem_Intersection, HashSet.mem_Intersection]
    exact and_comm
  · rw [HashSet.mem_SymmetricDifference A B hA hB,
      HashSet.mem_SymmetricDifference B A hB hA]
    tauto

/-- C6 witness: commutativity at A = {1, 2}, B = {2, 3}. -/
theorem c6_commutativity_witness :
    HashSet.Equals (HashSet.Union ([1, 2] : HashSet Int) [2, 3])
      (HashSet.Union ([2, 3] : HashSet Int) [1, 2]) = true ∧
    HashSet.Equals (HashSet.Intersection ([1, 2] : HashSet Int) [2, 3])
      (HashSet.Intersection ([2, 3] : HashSet Int) [1, 2]) = true ∧
    HashSet.Equals (HashSet.SymmetricDifference ([1, 2] : HashSet Int) [2, 3])
      (HashSet.SymmetricDifference ([2, 3] : HashSet Int) [1, 2]) = true :=
  c6_commutativity [1, 2] [2, 3] (by decide) (by decide)

/-- C9: after `Add(x)` the element is contained; after `Remove(x)` it is
not; membership of every other element is untouched; and the cardinality
moves by exactly one when the membership of `x` actually changed and by
zero otherwise. -/
theorem c9_add_remove_contains_len (s : HashSet α) (x y : α) (hs : s.Nodup) :
    HashSet.Contains (HashSet.Add s x) x = true ∧
    HashSet.Contains (HashSet.Remove s x) x = false ∧
    (y ≠ x → HashSet.Contains (HashSet.Add s x) y = HashSet.Contains s y) ∧
    (y ≠ x → HashSet.Contains (HashSet.Remove s x) y = HashSet.Contains s y) ∧
    HashSet.Len (HashSet.Add s x) =
      (if x ∈ s then HashSet.Len s else HashSet.Len s + 1) ∧
    HashSet.Len (HashSet.Remove s x) =
      (if x ∈ s then HashSet.Len s - 1 else HashSet.Len s) := by
  refine ⟨?_, ?_, ?_, ?_, ?_, ?_⟩
  · rw [HashSet.contains_iff, HashSet.mem_Add]
    exact Or.inr rfl
  · simp only [HashSet.Contains, HashSet.Remove, decide_eq_false_iff_not]
    intro hmem
    exact ((List.Nodup.mem_erase_iff hs).1 hmem).1 rfl
  · intro hyx
    simp only [HashSet.Contains]
    rw [decide_eq_decide, HashSet.mem_Add]
    simp [hyx]
  · intro hyx
    simp only [HashSet.Contains, HashSet.Remove]
    rw [decide_eq_decide]
    exact List.mem_erase_of_ne hyx
  · by_cases h : x ∈ s
    · rw [if_pos h, HashSet.Add, if_pos h]
    · rw [if_neg h, HashSet.Add, if_neg h]
      simp [HashSet.Len]
  · by_cases h : x ∈ s
    · rw [if_pos h]
      exact List.length_erase_of_mem h
    · rw [if_neg h]
      unfold HashSet.Len HashSet.Remove
      rw [List.erase_of_not_mem h]

/-- C9 witness: the claim at s = {1, 2}, x = 3 (added then removed at 1)
and the untouched element y = 2. -/
theorem c9_add_remove_contains_len_witness :
    HashSet.Contains (HashSet.Add ([1, 2] : HashSet Int) 3) 3 = true ∧
    HashSet.Contains (HashSet.Remove ([1, 2] : HashSet Int) 1) 1 = false ∧
    HashSet.Contains (HashSet.Add ([1, 2] : HashSet Int) 3) 2 =
      HashSet.Contains ([1, 2] : HashSet Int) 2 ∧
    HashSet.Len (HashSet.Add ([1, 2] : HashSet Int) 3) =
      HashSet.Len ([1, 2] : HashSet Int) + 1 ∧
    HashSet.Len (HashSet.Remove ([1, 2] : HashSet Int) 1) =
      HashSet.Len ([1, 2] : HashSet Int) - 1 := by
  have h3 := c9_add_remove_contains_len ([1, 2] : HashSet Int) 3 2 (by decide)
  have h1 := c9_add_remove_contains_len ([1, 2] : HashSet Int) 1 2 (by decide)
  refine ⟨h3.1, h1.2.1, h3.2.2.1 (by decide), ?_, ?_⟩
  · have := h3.2.2.2.2.1
    rwa [if_neg (by decide)] at this
  · have := h1.2.2.2.2.2
    rwa [if_pos (by decide)] at this

/-- C8: `String()` builds `"Set\x7be1, e2, ...\x7d"` by converting each
element with the generic to-string conversion and joining with `", "`; on
the empty set it is exactly `"Set\x7b\x7d"` and on {1} exactly
`"Set\x7b1\x7d"`. -/
theorem c8_string_format (s : HashSet Int) :
    HashSet.String s =
      "Set\x7b" ++ String.intercalate ", " (s.map (fun item => toString item)) ++ "\x7d" ∧
    HashSet.String ([] : HashSet Int) = "Set\x7b\x7d" ∧
    HashSet.String ([1] : HashSet Int) = "Set\x7b1\x7d" :=
  ⟨rfl, rfl, rfl⟩

/-! ### Frame lemma for freshly allocated results -/

theorem Store.alloc_frame (σ : Store α) (v : HashSet α) (a b : Nat)
    (ha : a < σ.mem.length) (hb : b < σ.mem.length) :
    Store.get (Store.alloc σ v).1 a = Store.get σ a ∧
    Store.get (Store.alloc σ v).1 b = Store.get σ b ∧
    (∀ x : α,
      Store.get (Store.addProg (Store.alloc σ v).1 (Store.alloc σ v).2 x) a =
        Store.get σ a ∧
      Store.get (Store.addProg (Store.alloc σ v).1 (Store.alloc σ v).2 x) b =
        Store.get σ b) ∧
    (∀ x : α,
      Store.get (Store.addProg (Store.alloc σ v).1 a x) (Store.alloc σ v).2 =
        Store.get (Store.alloc σ v).1 (Store.alloc σ v).2 ∧
      Store.get (Store.addProg (Store.alloc σ v).1 b x) (Store.alloc σ v).2 =
        Store.get (Store.alloc σ v).1 (Store.alloc σ v).2) := by
  have hfa : (Store.alloc σ v).2 ≠ a := (Store.alloc_fresh_ne σ v a ha).symm
  have hfb : (Store.alloc σ v).2 ≠ b := (Store.alloc_fresh_ne σ v b hb).symm
  refine ⟨Store.get_alloc_old σ v a ha, Store.get_alloc_old σ v b hb, fun x => ?_, fun x => ?_⟩
  · unfold Store.addProg
    rw [Store.get_put_ne _ _ _ _ hfa, Store.get_put_ne _ _ _ _ hfb,
      Store.get_alloc_old σ v a ha, Store.get_alloc_old σ v b hb]
    exact ⟨rfl, rfl⟩
  · unfold Store.addProg
    rw [Store.get_put_ne _ _ _ _ (Store.alloc_fresh_ne σ v a ha),
      Store.get_put_ne _ _ _ _ (Store.alloc_fresh_ne σ v b hb)]
    exact ⟨rfl, rfl⟩

/-- C7: each allocating operation leaves both operands unchanged and
returns a reference to freshly allocated storage disjoint from both, so
later mutation of the result never changes the operands and later mutation
of an operand never changes the result; and each in-place operation on
distinct receiver and argument references never mutates the argument. -/
theorem c7_storage_isolation (σ : Store α) (a b : Nat)
    (ha : a < σ.mem.length) (hb : b < σ.mem.length) (hab : a ≠ b) :
    (Store.get (Store.unionProg σ a b).1 a = Store.get σ a ∧
     Store.get (Store.unionProg σ a b).1 b = Store.get σ b ∧
     (∀ x : α,
       Store.get (Store.addProg (Store.unionProg σ a b).1 (Store.unionProg σ a b).2 x) a =
         Store.get σ a ∧
       Store.get (Store.addProg (Store.unionProg σ a b).1 (Store.unionProg σ a b).2 x) b =
         Store.get σ b) ∧
     (∀ x : α,
       Store.get (Store.addProg (Store.unionProg σ a b).1 a x) (Store.unionProg σ a b).2 =
         Store.get (Store.unionProg σ a b).1 (Store.unionProg σ a b).2 ∧
       Store.get (Store.addProg (Store.unionProg σ a b).1 b x) (Store.unionProg σ a b).2 =
         Store.get (Store.unionProg σ a b).1 (Store.unionProg σ a b).2)) ∧
    (Store.get (Store.intersectionProg σ a b).1 a = Store.get σ a ∧
     Store.get (Store.intersectionProg σ a b).1 b = Store.get σ b ∧
     (∀ x : α,
       Store.get (Store.addProg (Store.intersectionProg σ a b).1
           (Store.intersectionProg σ a b).2 x) a = Store.get σ a ∧
       Store.get (Store.addProg (Store.intersectionProg σ a b).1
           (Store.intersectionProg σ a b).2 x) b = Store.get σ b) ∧
     (∀ x : α,
       Store.get (Store.addProg (Store.intersectionProg σ a b).1 a x)
           (Store.intersectionProg σ a b).2 =
         Store.get (Store.intersectionProg σ a b).1 (Store.intersectionProg σ a b).2 ∧
       Store.get (Store.addProg (Store.intersectionProg σ a b).1 b x)
           (Store.intersectionProg σ a b).2 =
         Store.get (Store.intersectionProg σ a b).1 (Store.intersectionProg σ a b).2)) ∧
    (Store.get (Store.differenceProg σ a b).1 a = Store.get σ a ∧
     Store.get (Store.differenceProg σ a b).1 b = Store.get σ b ∧
     (∀ x : α,
       Store.get (Store.addProg (Store.differenceProg σ a b).1
           (Store.differenceProg σ a b).2 x) a = Store.get σ a ∧
       Store.get (Store.addProg (Store.differenceProg σ a b).1
           (Store.differenceProg σ a b).2 x) b = Store.get σ b) ∧
     (∀ x : α,
       Store.get (Store.addProg (Store.differenceProg σ a b).1 a x)
           (Store.differenceProg σ a b).2 =
         Store.get (Store.differenceProg σ a b).1 (Store.differenceProg σ a b).2 ∧
       Store.get (Store.addProg (Store.differenceProg σ a b).1 b x)
           (Store.differenceProg σ a b).2 =
         Store.get (Store.differenceProg σ a b).1 (Store.differenceProg σ a b).2)) ∧
    (Store.get (Store.symmetricDifferenceProg σ a b).1 a = Store.get σ a ∧
     Store.get (Store.symmetricDifferenceProg σ a b).1 b = Store.get σ b ∧
     (∀ x : α,
       Store.get (Store.addProg (Store.symmetricDifferenceProg σ a b).1
           (Store.symmetricDifferenceProg σ a b).2 x) a = Store.get σ a ∧
       Store.get (Store.addProg (Store.symmetricDifferenceProg σ a b).1
           (Store.symmetricDifferenceProg σ a b).2 x) b = Store.get σ b) ∧
     (∀ x : α,
       Store.get (Store.addProg (Store.symmetricDifferenceProg σ a b).1 a x)
           (Store.symmetricDifferenceProg σ a b).2 =
         Store.get (Store.symmetricDifferenceProg σ a b).1
           (Store.symmetricDifferenceProg σ a b).2 ∧
       Store.get (Store.addProg (Store.symmetricDifferenceProg σ a b).1 b x)
           (Store.symmetricDifferenceProg σ a b).2 =
         Store.get (Store.symmetricDifferenceProg σ a b).1
           (Store.symmetricDifferenceProg σ a b).2)) ∧
    Store.get (Store.mergeProg σ a b) b = Store.get σ b ∧
    Store.get (Store.retainProg σ a b) b = Store.get σ b ∧
    Store.get (Store.subtractProg σ a b) b = Store.get σ b ∧
    Store.get (Store.xorProg σ a b) b = Store.get σ b := by
  refine ⟨Store.alloc_frame σ _ a b ha hb, Store.alloc_frame σ _ a b ha hb,
    Store.alloc_frame σ _ a b ha hb, Store.alloc_frame σ _ a b ha hb, ?_, ?_, ?_, ?_⟩
  · rw [Store.mergeProg, if_neg hab]
    exact Store.get_put_ne σ a b _ hab
  · rw [Store.retainProg, if_neg hab]
    exact Store.get_put_ne σ a b _ hab
  · rw [Store.subtractProg, if_neg hab]
    exact Store.get_put_ne σ a b _ hab
  · rw [Store.xorProg, if_neg hab]
    exact Store.get_put_ne σ a b _ hab

/-- C7 witness: storage isolation at the two-set store holding A = {1} at
reference 0 and B = {2} at reference 1. -/
theorem c7_storage_isolation_witness :
    Store.get (Store.unionProg (Store.mk [[1], [2]] : Store Int) 0 1).1 0 =
      Store.get (Store.mk [[1], [2]] : Store Int) 0 ∧
    Store.get (Store.mergeProg (Store.mk [[1], [2]] : Store Int) 0 1) 1 =
      Store.get (Store.mk [[1], [2]] : Store Int) 1 :=
  ⟨(c7_storage_isolation (Store.mk [[1], [2]] : Store Int) 0 1
      (by decide) (by decide) (by decide)).1.1,
    (c7_storage_isolation (Store.mk [[1], [2]] : Store Int) 0 1
      (by decide) (by decide) (by decide)).2.2.2.2.1⟩
